import Mathlib

/- Verification model of the multi-agent pipeline application.

   Modelled code:
   - extract_code: re.search of the pattern  triple-backtick, optional
     literal hint python, newline, non-greedy body, triple-backtick
     (DOTALL), returning group(1).strip() on a match and text.strip()
     otherwise.  re.search takes the leftmost position at which the whole
     pattern matches; at one position the optional hint branch is tried
     with the hint first; the non-greedy body ends at the earliest later
     triple backtick.
   - call_llm: raise_for_status, then whole-body structured parse, with a
     fallback that strips the body, splits it into lines and parses only
     the last line; the response field (default empty) is stripped and
     returned.  The structured decoder itself is external library code,
     so it is a parameter of the model.
   - event_stream: the server-sent-events generator: per stage a status
     frame then a stage-tagged frame whose payload is the splitlines of
     the stage text; the test stage writes two fixed-name files, runs the
     tests, and removes both files after the run returns.  An exception
     raised by a stage escapes the generator: it is recorded in the exn
     field of the result, and no further frames are produced.

   Python strings are modelled as List Char. -/

def btick : Char := Char.ofNat 96

def trip : List Char := [btick, btick, btick]

def pythonL : List Char := ['p', 'y', 't', 'h', 'o', 'n']

/-- The opening fence in its hinted form: three backticks, python, newline. -/
def openPy : List Char := trip ++ pythonL ++ ['\n']

/-- The opening fence in its bare form: three backticks then a newline. -/
def openNl : List Char := trip ++ ['\n']

/-- The whitespace set of str.strip (ASCII part). -/
def pyIsSpace (c : Char) : Bool :=
  c == ' ' || c == '\t' || c == '\n' || c == '\r' || c == '\x0b' || c == '\x0c'

/-- str.strip(): remove leading and trailing whitespace. -/
def pyStrip (l : List Char) : List Char :=
  ((l.dropWhile pyIsSpace).reverse.dropWhile pyIsSpace).reverse

/-- The opening fence of the regex at one position: the hinted branch is
    tried first, then the bare branch (they exclude each other, the
    character after the three backticks differing). Returns the rest of
    the text after the consumed opening. -/
def fenceOpen? (l : List Char) : Option (List Char) :=
  if openPy.isPrefixOf l then some (l.drop 10)
  else if openNl.isPrefixOf l then some (l.drop 4)
  else none

/-- The non-greedy body with DOTALL: split at the earliest triple
    backtick, returning the interior before it and the rest after it. -/
def splitAtTriple : List Char → Option (List Char × List Char)
  | [] => none
  | c :: rest =>
    if trip.isPrefixOf (c :: rest) then some ([], rest.drop 2)
    else
      match splitAtTriple rest with
      | some p => some (c :: p.1, p.2)
      | none => none

/-- The whole pattern anchored at one position: opening fence, then the
    earliest closing triple backtick; the captured group is the interior. -/
def tryMatchAt (l : List Char) : Option (List Char) :=
  match fenceOpen? l with
  | none => none
  | some r =>
    match splitAtTriple r with
    | none => none
    | some p => some p.1

/-- re.search: the leftmost position at which the pattern matches. -/
def reSearch : List Char → Option (List Char)
  | [] => none
  | c :: rest =>
    match tryMatchAt (c :: rest) with
    | some i => some i
    | none => reSearch rest

/-- extract_code of app.py: the stripped interior of the first fenced
    block when the pattern matches, else the stripped whole text. -/
def extract_code (l : List Char) : List Char :=
  match reSearch l with
  | some i => pyStrip i
  | none => pyStrip l

/-- True when some suffix of the text begins with a triple backtick. -/
def hasTripleB : List Char → Bool
  | [] => false
  | c :: rest => trip.isPrefixOf (c :: rest) || hasTripleB rest

/-- A text on which the fence pattern matches somewhere: at some position
    an opening fence (bare or python-hinted) is followed, eventually, by
    a closing triple backtick. -/
def containsFenceMatch (l : List Char) : Prop :=
  ∃ n h i p, (h = [] ∨ h = pythonL) ∧
    l.drop n = trip ++ h ++ '\n' :: (i ++ trip ++ p)

/-- The line-break set of str.splitlines. -/
def isLineBreak (c : Char) : Bool :=
  c == '\n' || c == '\r' || c == '\x0b' || c == '\x0c' || c == '\x1c' ||
    c == '\x1d' || c == '\x1e' || c == '\x85' || c == '\u2028' || c == '\u2029'

/-- Worker of str.splitlines: accumulates the current line reversed; a
    terminal break produces no trailing empty line. -/
def splitlinesGo : List Char → List Char → List (List Char)
  | acc, [] => [acc.reverse]
  | acc, '\r' :: '\n' :: rest =>
    if rest.isEmpty then [acc.reverse] else acc.reverse :: splitlinesGo [] rest
  | acc, c :: rest =>
    if isLineBreak c then
      if rest.isEmpty then [acc.reverse] else acc.reverse :: splitlinesGo [] rest
    else splitlinesGo (c :: acc) rest

/-- str.splitlines(): the empty string has no lines. -/
def pySplitlines (l : List Char) : List (List Char) :=
  if l.isEmpty then [] else splitlinesGo [] l

/-- The key of the authoritative text field of a backend reply. -/
def respKey : List Char := "response".toList

/-- dict.get with a default. -/
def lookupD (l : List (List Char × List Char)) (k : List Char) (d : List Char) :
    List Char :=
  match l with
  | [] => d
  | e :: rest => if e.1 = k then e.2 else lookupD rest k d

/-- call_llm of app.py and multi_agent_ollama.py (identical logic), with
    the external structured decoder abstracted as the parse parameter.
    none models a raised exception.  raise_for_status fails on a
    non-success status; then the whole body is parsed; on failure the
    body is stripped, split into lines, and only the last line is parsed
    (no lines at all also raises).  The response field, defaulting to
    the empty string, is stripped and returned. -/
def call_llm (parse : List Char → Option (List (List Char × List Char)))
    (statusOk : Bool) (body : List Char) : Option (List Char) :=
  if statusOk = false then none
  else
    match parse body with
    | some data => some (pyStrip (lookupD data respKey []))
    | none =>
      match (pySplitlines (pyStrip body)).getLast? with
      | none => none
      | some lastLine =>
        match parse lastLine with
        | some data => some (pyStrip (lookupD data respKey []))
        | none => none

/-- Modelled from the spec: stands in for the external structured
    decoding of a backend fragment (the JSON decoder is library code
    outside this repository).  A fragment is a single line of the form
    RESPONSE=value and decodes to an object whose response field holds
    the value; any text spanning several lines is not a single
    well-formed fragment. -/
def parseSimple (s : List Char) : Option (List (List Char × List Char)) :=
  if ("RESPONSE=".toList).isPrefixOf s && s.all (fun c => !isLineBreak c) then
    some [(respKey, s.drop 9)]
  else none

/- ---------- The event stream ---------- -/

/-- A raised exception, as seen by the model. -/
inductive PyExn where
  | backendUnavailable
  | malformedResponse
  | testLaunch
  deriving DecidableEq

/-- Outcome of one agent generate call: the returned text, or a raised
    backend exception. -/
inductive LLMResult where
  | ok (text : List Char)
  | err (e : PyExn)
  deriving DecidableEq

/-- Outcome of subprocess.run for the unittest child: captured stdout,
    stderr and exit status when launched, or a raised launch error. -/
inductive LaunchOutcome where
  | launched (stdout : List Char) (stderr : List Char) (exitCode : Int)
  | failed
  deriving DecidableEq

/-- One unit of the server-sent-events stream: a status frame carrying a
    stage name, or a stage-tagged event frame carrying payload lines. -/
inductive Frame where
  | status (name : String)
  | event (tag : String) (payload : List (List Char))
  deriving DecidableEq

def frameIsStatusB : Frame → Bool
  | Frame.status _ => true
  | Frame.event _ _ => false

def frameHasTag (f : Frame) (t : String) : Bool :=
  match f with
  | Frame.event u _ => u == t
  | Frame.status _ => false

/-- A short printable summary of a frame, used to state facts about the
    shape of a stream without caring for payloads. -/
def frameLabel : Frame → String
  | Frame.status n => "status:" ++ n
  | Frame.event t _ => "event:" ++ t

/-- The filesystem, an association of file names to contents. -/
def FS : Type := List (List Char × List Char)

def fsRemove (name : List Char) (fs : FS) : FS :=
  List.filter (fun e => decide (e.1 ≠ name)) fs

def fsWrite (name content : List Char) (fs : FS) : FS :=
  (name, content) :: fsRemove name fs

def fsGet (fs : FS) (name : List Char) : Option (List Char) :=
  match fs with
  | [] => none
  | e :: rest => if e.1 = name then some e.2 else fsGet rest name

def moduleFile : List Char := "reverse_string_module.py".toList

def testFile : List Char := "test_reverse_string.py".toList

/-- The fixed preamble prepended to the extracted test body. -/
def preambleL : List Char :=
  "from reverse_string_module import reverse_string\nimport unittest\n\n".toList

/-- The whole outcome of one generator run: the frames produced before
    the generator finished or raised, the final filesystem, the escaped
    exception when one was raised, and the module/test sources handed to
    the test run when it was reached. -/
structure StreamOut where
  frames : List Frame
  fs : FS
  exn : Option PyExn
  ranWith : Option (List Char × List Char)

/-- The event_stream generator of app.py.  Stage results are parameters:
    coderR, testerR, testsR, docsR the four generate calls in program
    order, launch the subprocess.run outcome, fs0 the filesystem at
    entry.  Each status frame is yielded before the generate call of its
    stage, so a raising stage leaves its status frame behind; an
    exception ends the run with the frames produced so far.  The test
    stage writes the module and test files, and removes both only after
    subprocess.run returns (there is no finally in the source). -/
def event_stream (coderR testerR testsR docsR : LLMResult)
    (launch : LaunchOutcome) (fs0 : FS) : StreamOut :=
  match coderR with
  | LLMResult.err e => ⟨[Frame.status "Coder"], fs0, some e, none⟩
  | LLMResult.ok rawCode =>
    let code := extract_code rawCode
    let fr2 := [Frame.status "Coder",
      Frame.event "coder" (pySplitlines code), Frame.status "Tester"]
    match testerR with
    | LLMResult.err e => ⟨fr2, fs0, some e, none⟩
    | LLMResult.ok rawFeedback =>
      let feedback := extract_code rawFeedback
      let fr3 := fr2 ++ [Frame.event "tester" (pySplitlines feedback),
        Frame.status "TestAgent"]
      match testsR with
      | LLMResult.err e => ⟨fr3, fs0, some e, none⟩
      | LLMResult.ok rawTests =>
        let testsBody := extract_code rawTests
        let tests := preambleL ++ testsBody
        let fr4 := fr3 ++ [Frame.event "testagent" (pySplitlines tests)]
        let fs2 := fsWrite testFile tests (fsWrite moduleFile code fs0)
        match launch with
        | LaunchOutcome.failed =>
          ⟨fr4, fs2, some PyExn.testLaunch, some (code, tests)⟩
        | LaunchOutcome.launched out errOut _exit =>
          let fs3 := fsRemove testFile (fsRemove moduleFile fs2)
          let fr5 := fr4 ++
            [Frame.event "test_results" (pySplitlines (out ++ errOut)),
             Frame.status "Documenter"]
          match docsR with
          | LLMResult.err e => ⟨fr5, fs3, some e, some (code, tests)⟩
          | LLMResult.ok rawDocs =>
            let docs := extract_code rawDocs
            ⟨fr5 ++ [Frame.event "documenter" (pySplitlines docs),
              Frame.status "Done"], fs3, none, some (code, tests)⟩

/- ---------- Concrete inputs for counterexamples and witnesses ---------- -/

def rawCoder0 : List Char :=
  "```python\ndef reverse_string(input_str):\n    return input_str[::-1]\n```".toList

def rawTester0 : List Char := "Looks good, no changes needed.".toList

def rawTests0 : List Char :=
  "```python\nclass T(unittest.TestCase):\n    def test_x(self): pass\n```".toList

def rawDocs0 : List Char := "Reverses a string.".toList

def outText0 : List Char := ".\n".toList

def errText0 : List Char := "Ran 1 test\n\nOK\n".toList

/-- The frames of one fully successful concrete run on an empty
    filesystem. -/
def frames0 : List Frame :=
  (event_stream (LLMResult.ok rawCoder0) (LLMResult.ok rawTester0)
    (LLMResult.ok rawTests0) (LLMResult.ok rawDocs0)
    (LaunchOutcome.launched outText0 errText0 0) []).frames

def jsBlock0 : List Char := "```javascript\nvar x\n```".toList

def jsInterior0 : List Char := "var x".toList

def c3Pre0 : List Char := "Here is the code: ".toList

def c3Interior0 : List Char := "def f():\n    return 1".toList

def c3Post0 : List Char := " and more\n```second block```".toList

def c4Input0 : List Char := "  print(1)\n".toList

def c8Body0 : List Char := "RESPONSE=hello\nGARBAGE".toList

def c8FirstLine0 : List Char := "RESPONSE=hello".toList

def c8Body2 : List Char := "junk\nRESPONSE=ok".toList

def c8Last2 : List Char := "RESPONSE=ok".toList

def c10Body0 : List Char := "RESPONSE=  ok  ".toList

def okVal : List Char := "ok".toList

def helloVal : List Char := "hello".toList

def garbageLine0 : List Char := "GARBAGE".toList

/- ---------- Generic list lemmas ---------- -/

theorem isPrefixOf_append_self (p t : List Char) : p.isPrefixOf (p ++ t) = true := by
  induction p with
  | nil => simp [List.isPrefixOf]
  | cons c p ih => simpa [List.isPrefixOf] using ih

theorem isPrefixOf_exists_append (p : List Char) :
    ∀ l, p.isPrefixOf l = true → ∃ t, l = p ++ t := by
  induction p with
  | nil => intro l _; exact ⟨l, rfl⟩
  | cons c p ih =>
    intro l h
    match l with
    | [] => simp [List.isPrefixOf] at h
    | d :: l' =>
      simp only [List.isPrefixOf, Bool.and_eq_true, beq_iff_eq] at h
      obtain ⟨t, ht⟩ := ih l' h.2
      exact ⟨t, by simp [h.1, ht]⟩

theorem isPrefixOf_of_append_left (p q l : List Char)
    (h : (p ++ q).isPrefixOf l = true) : p.isPrefixOf l = true := by
  obtain ⟨t, ht⟩ := isPrefixOf_exists_append (p ++ q) l h
  subst ht
  simpa using isPrefixOf_append_self p (q ++ t)

theorem isPrefixOf_append_mono (p s b : List Char)
    (h : p.isPrefixOf s = true) : p.isPrefixOf (s ++ b) = true := by
  obtain ⟨t, ht⟩ := isPrefixOf_exists_append p s h
  subst ht
  simpa using isPrefixOf_append_self p (t ++ b)

theorem length_le_of_isPrefixOf (p l : List Char) (h : p.isPrefixOf l = true) :
    p.length ≤ l.length := by
  obtain ⟨t, ht⟩ := isPrefixOf_exists_append p l h
  subst ht
  simp

theorem isPrefixOf_append_of_le (p s b : List Char) (h : p.length ≤ s.length) :
    p.isPrefixOf (s ++ b) = p.isPrefixOf s := by
  induction p generalizing s with
  | nil => simp [List.isPrefixOf]
  | cons c p ih =>
    match s with
    | [] => simp at h
    | d :: s' =>
      simp only [List.length_cons, Nat.add_le_add_iff_right] at h
      simp [List.isPrefixOf, ih s' h]

theorem drop_append_len (a l : List Char) (n : Nat) :
    (a ++ l).drop (a.length + n) = l.drop n := by
  induction a with
  | nil => simp
  | cons c a ih => simpa [Nat.succ_add] using ih

theorem drop_append_le (a l : List Char) (n : Nat) (h : n ≤ a.length) :
    (a ++ l).drop n = a.drop n ++ l := by
  induction a generalizing n with
  | nil => simp at h; simp [h]
  | cons c a ih =>
    match n with
    | 0 => simp
    | n + 1 =>
      simp only [List.length_cons, Nat.add_le_add_iff_right] at h
      simpa using ih n h

theorem exists_append_dropWhile (p : Char → Bool) (l : List Char) :
    ∃ s, l = s ++ l.dropWhile p := by
  induction l with
  | nil => exact ⟨[], rfl⟩
  | cons c l ih =>
    by_cases h : p c
    · obtain ⟨s, hs⟩ := ih
      exact ⟨c :: s, by simp [List.dropWhile_cons, h]; exact hs⟩
    · exact ⟨[], by simp [List.dropWhile_cons, h]⟩

theorem head?_dropWhile_false (p : Char → Bool) (l : List Char) (c : Char)
    (hc : (l.dropWhile p).head? = some c) : p c = false := by
  have h := List.head?_dropWhile_not p l
  rw [hc] at h
  exact h

/- ---------- pyStrip lemmas ---------- -/

theorem pyStrip_decomp (l : List Char) : ∃ a b, l = a ++ pyStrip l ++ b := by
  obtain ⟨s1, hs1⟩ := exists_append_dropWhile pyIsSpace l
  obtain ⟨s2, hs2⟩ :=
    exists_append_dropWhile pyIsSpace (l.dropWhile pyIsSpace).reverse
  refine ⟨s1, s2.reverse, ?_⟩
  have ht : l.dropWhile pyIsSpace = pyStrip l ++ s2.reverse := by
    have := congrArg List.reverse hs2
    simpa [pyStrip] using this
  exact hs1.trans (by rw [ht, List.append_assoc])

theorem head?_pyStrip_false (l : List Char) (c : Char)
    (hc : (pyStrip l).head? = some c) : pyIsSpace c = false := by
  set t := l.dropWhile pyIsSpace with hT
  set w := t.reverse.dropWhile pyIsSpace with hW
  have hps : pyStrip l = w.reverse := rfl
  rw [hps, List.head?_reverse] at hc
  obtain ⟨s2, hs2⟩ := exists_append_dropWhile pyIsSpace t.reverse
  have hglr : w.getLast? = t.reverse.getLast? := by
    rw [hs2, List.getLast?_append, ← hW, hc]
    simp
  rw [hc, List.getLast?_reverse] at hglr
  exact head?_dropWhile_false pyIsSpace l c (by rw [← hT, ← hglr])

theorem getLast?_pyStrip_false (l : List Char) (c : Char)
    (hc : (pyStrip l).getLast? = some c) : pyIsSpace c = false := by
  have hps : pyStrip l =
      ((l.dropWhile pyIsSpace).reverse.dropWhile pyIsSpace).reverse := rfl
  rw [hps, List.getLast?_reverse] at hc
  exact head?_dropWhile_false pyIsSpace (l.dropWhile pyIsSpace).reverse c hc

theorem pyStrip_idem (l : List Char) : pyStrip (pyStrip l) = pyStrip l := by
  set t := l.dropWhile pyIsSpace with hT
  set w := t.reverse.dropWhile pyIsSpace with hW
  have hps : pyStrip l = w.reverse := rfl
  have hstep1 : w.reverse.dropWhile pyIsSpace = w.reverse := by
    match hww : w.reverse with
    | [] => rfl
    | c :: rest =>
      have hc : (pyStrip l).head? = some c := by rw [hps, hww]; rfl
      have := head?_pyStrip_false l c hc
      simp [List.dropWhile_cons, this]
  show ((w.reverse.dropWhile pyIsSpace).reverse.dropWhile pyIsSpace).reverse
      = w.reverse
  rw [hstep1, List.reverse_reverse]
  have hwid : w.dropWhile pyIsSpace = w := by
    rw [hW, List.dropWhile_idempotent]
  rw [hwid]

/- ---------- Fence search lemmas ---------- -/

theorem splitAtTriple_sound :
    ∀ l i r, splitAtTriple l = some (i, r) → l = i ++ trip ++ r := by
  intro l
  induction l with
  | nil => intro i r h; simp [splitAtTriple] at h
  | cons c rest ih =>
    intro i r h
    simp only [splitAtTriple] at h
    split at h
    · rename_i hcond
      obtain ⟨t, ht⟩ := isPrefixOf_exists_append trip (c :: rest) hcond
      simp only [trip, List.cons_append, List.nil_append, List.cons.injEq] at ht
      obtain ⟨hc, hrest⟩ := ht
      simp only [Option.some.injEq, Prod.mk.injEq] at h
      obtain ⟨hi, hr⟩ := h
      subst hc hrest
      simp [← hi, ← hr, trip]
    · match hsr : splitAtTriple rest with
      | none => rw [hsr] at h; exact absurd h (by simp)
      | some p =>
        rw [hsr] at h
        simp only [Option.some.injEq, Prod.mk.injEq] at h
        obtain ⟨hi, hr⟩ := h
        have hrest := ih p.1 p.2 (by rw [hsr])
        rw [← hi, ← hr, hrest]
        simp

theorem splitAtTriple_interior_free :
    ∀ l i r, splitAtTriple l = some (i, r) →
      ∀ n, trip.isPrefixOf (i.drop n) = false := by
  intro l
  induction l with
  | nil => intro i r h; simp [splitAtTriple] at h
  | cons c rest ih =>
    intro i r h
    simp only [splitAtTriple] at h
    split at h
    · simp only [Option.some.injEq, Prod.mk.injEq] at h
      obtain ⟨hi, _⟩ := h
      intro n
      rw [← hi]
      simp [trip, List.isPrefixOf]
    · rename_i hcond
      match hsr : splitAtTriple rest with
      | none => rw [hsr] at h; exact absurd h (by simp)
      | some p =>
        rw [hsr] at h
        simp only [Option.some.injEq, Prod.mk.injEq] at h
        obtain ⟨hi, _⟩ := h
        intro n
        match n with
        | Nat.succ m =>
          rw [← hi]
          simpa using ih p.1 p.2 (by rw [hsr]) m
        | 0 =>
          rw [← hi]
          simp only [List.drop_zero]
          by_contra hcp
          rw [Bool.not_eq_false] at hcp
          obtain ⟨t, ht⟩ := isPrefixOf_exists_append trip _ hcp
          simp only [trip, List.cons_append, List.nil_append,
            List.cons.injEq] at ht
          obtain ⟨hc, hp1⟩ := ht
          have hrest := splitAtTriple_sound rest p.1 p.2 (by rw [hsr])
          apply hcond
          rw [hrest, hp1, hc]
          have hshape : (btick : Char) ::
              ((btick :: btick :: t) ++ trip ++ p.2)
              = trip ++ (t ++ trip ++ p.2) := by simp [trip]
          rw [hshape]
          exact isPrefixOf_append_self trip _

theorem splitAtTriple_complete :
    ∀ i post : List Char,
      (∀ n, trip.isPrefixOf (i.drop n) = false) →
      i.getLast? ≠ some btick →
      splitAtTriple (i ++ trip ++ post) = some (i, post) := by
  intro i
  induction i with
  | nil =>
    intro post _ _
    have hcond : trip.isPrefixOf ((btick : Char) :: btick :: btick :: post)
        = true := by
      have := isPrefixOf_append_self trip post
      simpa [trip] using this
    have hshape : ([] : List Char) ++ trip ++ post
        = btick :: btick :: btick :: post := by simp [trip]
    rw [hshape]
    simp [splitAtTriple, hcond]
  | cons c i' ih =>
    intro post hfree hlast
    have hfree' : ∀ n, trip.isPrefixOf (i'.drop n) = false := by
      intro n
      simpa using hfree (n + 1)
    have hlast' : i'.getLast? ≠ some btick := by
      match i' with
      | [] => simp
      | x :: xs => simpa using hlast
    have hcf : trip.isPrefixOf (c :: (i' ++ trip ++ post)) = false := by
      by_contra hcp
      rw [Bool.not_eq_false] at hcp
      obtain ⟨t, ht⟩ := isPrefixOf_exists_append trip _ hcp
      simp only [trip, List.cons_append, List.nil_append,
        List.cons.injEq] at ht
      obtain ⟨hc, hrest⟩ := ht
      match i' with
      | [] =>
        have : c ≠ btick := by simpa using hlast
        exact this hc
      | [d] =>
        simp only [List.cons_append, List.nil_append,
          List.cons.injEq, trip] at hrest
        have : d ≠ btick := by simpa using hlast
        exact this hrest.1
      | d :: e :: i'' =>
        simp only [List.cons_append, List.cons.injEq] at hrest
        have h0 := hfree 0
        simp only [List.drop_zero] at h0
        rw [hc, hrest.1, hrest.2.1] at h0
        have : trip.isPrefixOf ((btick : Char) :: btick :: btick :: i'')
            = true := by
          have := isPrefixOf_append_self trip i''
          simpa [trip] using this
        rw [this] at h0
        exact absurd h0 (by simp)
    have hshape : (c :: i') ++ trip ++ post
        = c :: (i' ++ trip ++ post) := by simp
    rw [hshape]
    simp only [splitAtTriple, hcf]
    rw [ih post hfree' hlast']
    simp

theorem openPy_length : openPy.length = 10 := by decide

theorem openNl_length : openNl.length = 4 := by decide

theorem fenceOpen?_some_decomp (l r : List Char) (h : fenceOpen? l = some r) :
    l = openPy ++ r ∨ l = openNl ++ r := by
  simp only [fenceOpen?] at h
  split at h
  · rename_i hp
    obtain ⟨t, ht⟩ := isPrefixOf_exists_append openPy l hp
    left
    subst ht
    have hd : (openPy ++ t).drop 10 = t := by
      rw [← openPy_length]
      exact List.drop_left openPy t
    rw [hd] at h
    simp only [Option.some.injEq] at h
    rw [h]
  · split at h
    · rename_i hn
      obtain ⟨t, ht⟩ := isPrefixOf_exists_append openNl l hn
      right
      subst ht
      have hd : (openNl ++ t).drop 4 = t := by
        rw [← openNl_length]
        exact List.drop_left openNl t
      rw [hd] at h
      simp only [Option.some.injEq] at h
      rw [h]
    · exact absurd h (by simp)

theorem fenceOpen?_openPy_eval (r : List Char) :
    fenceOpen? (openPy ++ r) = some r := by
  have hp : openPy.isPrefixOf (openPy ++ r) = true := isPrefixOf_append_self _ _
  simp only [fenceOpen?, hp, if_true]
  rw [← openPy_length, List.drop_left]

theorem fenceOpen?_openNl_eval (r : List Char) :
    fenceOpen? (openNl ++ r) = some r := by
  have hp : openPy.isPrefixOf (openNl ++ r) = false := by
    have hpn : (('p' : Char) == '\n') = false := by decide
    simp [openPy, openNl, trip, pythonL, List.isPrefixOf, hpn]
  have hn : openNl.isPrefixOf (openNl ++ r) = true := isPrefixOf_append_self _ _
  simp only [fenceOpen?, hp, hn, if_true, Bool.false_eq_true, if_false]
  rw [← openNl_length, List.drop_left]

theorem tryMatchAt_nil : tryMatchAt [] = none := by
  simp [tryMatchAt, fenceOpen?, openPy, openNl, trip, pythonL, List.isPrefixOf]

theorem reSearch_eq_none_iff (l : List Char) :
    reSearch l = none ↔ ∀ n, tryMatchAt (l.drop n) = none := by
  induction l with
  | nil => simp [reSearch, tryMatchAt_nil]
  | cons c rest ih =>
    cases htm : tryMatchAt (c :: rest) with
    | some i =>
      simp only [reSearch, htm]
      constructor
      · intro h; exact absurd h (by simp)
      · intro h
        have h0 := h 0
        simp only [List.drop_zero] at h0
        rw [htm] at h0
        exact absurd h0 (by simp)
    | none =>
      simp only [reSearch, htm]
      rw [ih]
      constructor
      · intro h n
        match n with
        | 0 => simpa using htm
        | m + 1 => simpa using h m
      · intro h n
        simpa using h (n + 1)

theorem reSearch_some_exists (l : List Char) (i : List Char)
    (h : reSearch l = some i) : ∃ n, tryMatchAt (l.drop n) = some i := by
  induction l with
  | nil => simp [reSearch] at h
  | cons c rest ih =>
    cases htm : tryMatchAt (c :: rest) with
    | some j =>
      rw [reSearch, htm] at h
      simp only [Option.some.injEq] at h
      exact ⟨0, by simpa [htm] using congrArg some h⟩
    | none =>
      rw [reSearch, htm] at h
      obtain ⟨n, hn⟩ := ih h
      exact ⟨n + 1, by simpa using hn⟩

theorem splitAtTriple_append :
    ∀ r b i r2, splitAtTriple r = some (i, r2) →
      splitAtTriple (r ++ b) = some (i, r2 ++ b) := by
  intro r
  induction r with
  | nil => intro b i r2 h; simp [splitAtTriple] at h
  | cons c rest ih =>
    intro b i r2 h
    simp only [splitAtTriple] at h
    split at h
    · rename_i hcond
      simp only [Option.some.injEq, Prod.mk.injEq] at h
      obtain ⟨hi, hr2⟩ := h
      have hlen : 2 ≤ rest.length := by
        have := length_le_of_isPrefixOf trip (c :: rest) hcond
        simp only [trip, List.length_cons] at this
        omega
      have hcond2 : trip.isPrefixOf ((c :: rest) ++ b) = true :=
        isPrefixOf_append_mono trip (c :: rest) b hcond
      have hshape : (c :: rest) ++ b = c :: (rest ++ b) := by simp
      rw [hshape]
      rw [hshape] at hcond2
      simp only [splitAtTriple, hcond2, if_true]
      rw [drop_append_le rest b 2 hlen, ← hi, ← hr2]
    · rename_i hcond
      match hsr : splitAtTriple rest with
      | none => rw [hsr] at h; exact absurd h (by simp)
      | some p =>
        rw [hsr] at h
        simp only [Option.some.injEq, Prod.mk.injEq] at h
        obtain ⟨hi, hr2⟩ := h
        have hrest := splitAtTriple_sound rest p.1 p.2 (by rw [hsr])
        have hlen : trip.length ≤ (c :: rest).length := by
          rw [hrest]
          simp [trip]
          omega
        have hcond2 : trip.isPrefixOf ((c :: rest) ++ b) = false := by
          rw [isPrefixOf_append_of_le trip (c :: rest) b hlen]
          simp only [Bool.not_eq_true] at hcond
          exact hcond
        have hshape : (c :: rest) ++ b = c :: (rest ++ b) := by simp
        rw [hshape]
        rw [hshape] at hcond2
        simp only [splitAtTriple, hcond2, Bool.false_eq_true, if_false]
        rw [ih b p.1 p.2 (by rw [hsr])]
        rw [← hi, ← hr2]

theorem tryMatchAt_some_inv (s i : List Char) (h : tryMatchAt s = some i) :
    ∃ r p2, fenceOpen? s = some r ∧ splitAtTriple r = some (i, p2) := by
  simp only [tryMatchAt] at h
  split at h
  · exact absurd h (by simp)
  · rename_i r hf
    split at h
    · exact absurd h (by simp)
    · rename_i p hs
      simp only [Option.some.injEq] at h
      exact ⟨r, p.2, hf, by rw [hs, ← h]⟩

theorem tryMatchAt_some_trip (s i : List Char) (h : tryMatchAt s = some i) :
    trip.isPrefixOf s = true := by
  obtain ⟨r, p2, hf, _⟩ := tryMatchAt_some_inv s i h
  rcases fenceOpen?_some_decomp s r hf with hd | hd
  · rw [hd]
    have hshape : openPy ++ r = trip ++ (pythonL ++ ['\n'] ++ r) := by
      simp [openPy]
    rw [hshape]
    exact isPrefixOf_append_self trip _
  · rw [hd]
    have hshape : openNl ++ r = trip ++ (['\n'] ++ r) := by
      simp [openNl]
    rw [hshape]
    exact isPrefixOf_append_self trip _

theorem tryMatchAt_append (s b i : List Char) (h : tryMatchAt s = some i) :
    tryMatchAt (s ++ b) = some i := by
  obtain ⟨r, p2, hf, hs⟩ := tryMatchAt_some_inv s i h
  have hsplit := splitAtTriple_append r b i p2 hs
  rcases fenceOpen?_some_decomp s r hf with hd | hd
  · subst hd
    have hshape : (openPy ++ r) ++ b = openPy ++ (r ++ b) := by simp
    rw [hshape]
    simp only [tryMatchAt, fenceOpen?_openPy_eval, hsplit]
  · subst hd
    have hshape : (openNl ++ r) ++ b = openNl ++ (r ++ b) := by simp
    rw [hshape]
    simp only [tryMatchAt, fenceOpen?_openNl_eval, hsplit]

theorem hasTripleB_false_drop (l : List Char) (h : hasTripleB l = false) :
    ∀ n, trip.isPrefixOf (l.drop n) = false := by
  induction l with
  | nil =>
    intro n
    simp [trip, List.isPrefixOf]
  | cons c rest ih =>
    simp only [hasTripleB, Bool.or_eq_false_iff] at h
    intro n
    match n with
    | 0 => simpa using h.1
    | m + 1 => simpa using ih h.2 m

theorem noTriple_reSearch_none (l : List Char)
    (h : ∀ n, trip.isPrefixOf (l.drop n) = false) : reSearch l = none := by
  rw [reSearch_eq_none_iff]
  intro n
  cases htm : tryMatchAt (l.drop n) with
  | none => rfl
  | some i =>
    have := tryMatchAt_some_trip _ i htm
    rw [h n] at this
    exact absurd this (by simp)

theorem noTriple_of_decomp (l a m b : List Char)
    (h : ∀ n, trip.isPrefixOf (l.drop n) = false) (hd : l = a ++ m ++ b) :
    ∀ n, trip.isPrefixOf (m.drop n) = false := by
  intro n
  by_cases hn : m.length ≤ n
  · rw [List.drop_eq_nil_of_le hn]
    simp [trip, List.isPrefixOf]
  · by_contra hcp
    rw [Bool.not_eq_false] at hcp
    have hmono : trip.isPrefixOf (m.drop n ++ b) = true :=
      isPrefixOf_append_mono _ _ _ hcp
    have hdr : (m ++ b).drop n = m.drop n ++ b :=
      drop_append_le m b n (by omega)
    have hdl : l.drop (a.length + n) = (m ++ b).drop n := by
      rw [hd, List.append_assoc]
      exact drop_append_len a (m ++ b) n
    have := h (a.length + n)
    rw [hdl, hdr, hmono] at this
    exact absurd this (by simp)

theorem reSearch_none_of_decomp (l a m b : List Char)
    (h : reSearch l = none) (hd : l = a ++ m ++ b) : reSearch m = none := by
  rw [reSearch_eq_none_iff] at h ⊢
  intro n
  cases htm : tryMatchAt (m.drop n) with
  | none => rfl
  | some i =>
    by_cases hn : m.length ≤ n
    · rw [List.drop_eq_nil_of_le hn] at htm
      rw [tryMatchAt_nil] at htm
      exact absurd htm (by simp)
    · have happ := tryMatchAt_append (m.drop n) b i htm
      have hdr : (m ++ b).drop n = m.drop n ++ b :=
        drop_append_le m b n (by omega)
      have hdl : l.drop (a.length + n) = (m ++ b).drop n := by
        rw [hd, List.append_assoc]
        exact drop_append_len a (m ++ b) n
      have hcontra := h (a.length + n)
      rw [hdl, hdr, happ] at hcontra
      exact absurd hcontra (by simp)

theorem reSearch_skip :
    ∀ pre rest : List Char,
      (∀ n, n < pre.length → tryMatchAt (pre.drop n ++ rest) = none) →
      reSearch (pre ++ rest) = reSearch rest := by
  intro pre
  induction pre with
  | nil => intro rest _; rfl
  | cons c pre' ih =>
    intro rest h
    have h0 : tryMatchAt ((c :: pre') ++ rest) = none := by
      have := h 0 (by simp)
      simpa using this
    have hshape : (c :: pre') ++ rest = c :: (pre' ++ rest) := by simp
    rw [hshape] at h0
    rw [hshape, reSearch, h0]
    exact ih rest (fun n hn => by simpa using h (n + 1) (by simpa using hn))

theorem tryMatchAt_some_decomp (s i : List Char) (h : tryMatchAt s = some i) :
    ∃ hint p, (hint = [] ∨ hint = pythonL) ∧
      s = trip ++ hint ++ '\n' :: (i ++ trip ++ p) := by
  obtain ⟨r, p2, hf, hs⟩ := tryMatchAt_some_inv s i h
  have hr := splitAtTriple_sound r i p2 hs
  rcases fenceOpen?_some_decomp s r hf with hd | hd
  · refine ⟨pythonL, p2, Or.inr rfl, ?_⟩
    rw [hd, hr]
    simp [openPy]
  · refine ⟨[], p2, Or.inl rfl, ?_⟩
    rw [hd, hr]
    simp [openNl]

theorem tryMatchAt_shift_none (d W : List Char) (hd : d ≠ [])
    (htrip : trip.isPrefixOf d = false) :
    tryMatchAt (d ++ (trip ++ W)) = none := by
  have hfo : fenceOpen? (d ++ (trip ++ W)) = none := by
    match d with
    | [x] =>
      have hshape : [x] ++ (trip ++ W) = x :: btick :: btick :: btick :: W := by
        simp [trip]
      have h1 : (('\n' : Char) == btick) = false := by decide
      have h2 : (('p' : Char) == btick) = false := by decide
      rw [hshape]
      simp [fenceOpen?, openPy, openNl, trip, pythonL, List.isPrefixOf, h1, h2]
    | [x, y] =>
      have hshape : [x, y] ++ (trip ++ W)
          = x :: y :: btick :: btick :: btick :: W := by simp [trip]
      have h1 : (('\n' : Char) == btick) = false := by decide
      have h2 : (('p' : Char) == btick) = false := by decide
      rw [hshape]
      simp [fenceOpen?, openPy, openNl, trip, pythonL, List.isPrefixOf, h1, h2]
    | x :: y :: z :: d' =>
      have hlen : trip.length ≤ (x :: y :: z :: d').length := by
        simp [trip]
      have hstable := isPrefixOf_append_of_le trip (x :: y :: z :: d')
        (trip ++ W) hlen
      have htripfull : trip.isPrefixOf ((x :: y :: z :: d') ++ (trip ++ W))
          = false := by rw [hstable]; exact htrip
      have hpy : openPy.isPrefixOf ((x :: y :: z :: d') ++ (trip ++ W))
          = false := by
        by_contra hc
        rw [Bool.not_eq_false] at hc
        have : openPy = trip ++ (pythonL ++ ['\n']) := by simp [openPy]
        rw [this] at hc
        have := isPrefixOf_of_append_left trip (pythonL ++ ['\n']) _ hc
        rw [htripfull] at this
        exact absurd this (by simp)
      have hnl : openNl.isPrefixOf ((x :: y :: z :: d') ++ (trip ++ W))
          = false := by
        by_contra hc
        rw [Bool.not_eq_false] at hc
        have : openNl = trip ++ ['\n'] := by simp [openNl]
        rw [this] at hc
        have := isPrefixOf_of_append_left trip ['\n'] _ hc
        rw [htripfull] at this
        exact absurd this (by simp)
      simp only [fenceOpen?, hpy, hnl, Bool.false_eq_true, if_false]
  simp [tryMatchAt, hfo]

theorem reSearch_cons_of_match (c : Char) (rest i : List Char)
    (h : tryMatchAt (c :: rest) = some i) : reSearch (c :: rest) = some i := by
  rw [reSearch, h]

theorem reSearch_first_fence (pre hint i post : List Char)
    (hpre : hasTripleB pre = false)
    (hhint : hint = [] ∨ hint = pythonL)
    (hfree : hasTripleB i = false)
    (hlast : i.getLast? ≠ some btick) :
    reSearch (pre ++ (trip ++ (hint ++ '\n' :: (i ++ trip ++ post))))
      = some i := by
  have hcomplete := splitAtTriple_complete i post
    (hasTripleB_false_drop i hfree) hlast
  have hmatch : tryMatchAt (trip ++ (hint ++ '\n' :: (i ++ trip ++ post)))
      = some i := by
    rcases hhint with hh | hh
    · subst hh
      have hshape : trip ++ (([] : List Char) ++ '\n' :: (i ++ trip ++ post))
          = openNl ++ (i ++ trip ++ post) := by simp [openNl]
      rw [hshape]
      simp only [tryMatchAt, fenceOpen?_openNl_eval]
      rw [hcomplete]
    · subst hh
      have hshape : trip ++ (pythonL ++ '\n' :: (i ++ trip ++ post))
          = openPy ++ (i ++ trip ++ post) := by simp [openPy]
      rw [hshape]
      simp only [tryMatchAt, fenceOpen?_openPy_eval]
      rw [hcomplete]
  have hskip := reSearch_skip pre (trip ++ (hint ++ '\n' :: (i ++ trip ++ post)))
    (by
      intro n hn
      apply tryMatchAt_shift_none
      · rw [Ne, List.drop_eq_nil_iff]
        omega
      · exact hasTripleB_false_drop pre hpre n)
  rw [hskip]
  have hshape2 : trip ++ (hint ++ '\n' :: (i ++ trip ++ post))
      = btick :: (btick :: btick :: (hint ++ '\n' :: (i ++ trip ++ post))) := by
    simp [trip]
  rw [hshape2] at hmatch ⊢
  exact reSearch_cons_of_match _ _ _ hmatch

/- ---------- Filesystem lemmas ---------- -/

theorem fsGet_write_self (n c : List Char) (fs : FS) :
    fsGet (fsWrite n c fs) n = some c := by
  simp [fsWrite, fsGet]

theorem fsGet_remove_self (n : List Char) (fs : FS) :
    fsGet (fsRemove n fs) n = none := by
  induction fs with
  | nil => rfl
  | cons e rest ih =>
    simp only [fsRemove, List.filter_cons]
    split
    · rename_i hcond
      simp only [decide_eq_true_eq] at hcond
      simp only [fsGet, if_neg (fun hh => hcond hh)]
      exact ih
    · exact ih

theorem fsGet_remove_other (n m : List Char) (fs : FS) (h : m ≠ n) :
    fsGet (fsRemove n fs) m = fsGet fs m := by
  induction fs with
  | nil => rfl
  | cons e rest ih =>
    simp only [fsRemove, List.filter_cons]
    split
    · simp only [fsGet]
      split
      · rfl
      · exact ih
    · rename_i hcond
      simp only [decide_eq_true_eq, Ne, Decidable.not_not] at hcond
      have hne : ¬ e.1 = m := by
        rw [hcond]
        exact fun hh => h hh.symm
      simp only [fsGet, if_neg hne]
      exact ih

theorem fsGet_write_other (n c m : List Char) (fs : FS) (h : m ≠ n) :
    fsGet (fsWrite n c fs) m = fsGet fs m := by
  simp only [fsWrite, fsGet, if_neg (fun hh : n = m => h hh.symm)]
  exact fsGet_remove_other n m fs h

/- ---------- Helper facts for claims ---------- -/

theorem noTriple_no_fence (l : List Char) (h : hasTripleB l = false) :
    ¬ containsFenceMatch l := by
  intro hc
  obtain ⟨n, hint, i, p, hh, hdec⟩ := hc
  have hfree := hasTripleB_false_drop l h n
  rw [hdec] at hfree
  have hshape : trip ++ hint ++ '\n' :: (i ++ trip ++ p)
      = trip ++ (hint ++ '\n' :: (i ++ trip ++ p)) := by simp
  rw [hshape, isPrefixOf_append_self] at hfree
  exact absurd hfree (by simp)

/- ---------- Claim theorems ---------- -/

/-- Claim C3 (corrected): for a text pre + fence-open + interior + close +
    post, where the opening is three backticks followed by a newline or by
    the exact hint python and then a newline (other language hints are not
    recognized, see the counterexample), pre holds no triple backtick (so
    that the block is the first), and the interior holds no triple
    backtick and does not end in a backtick, extract_code returns exactly
    the trimmed interior, independent of the content of post, and the
    language hint is not part of the result. -/
theorem C3_amended_first_fence (pre hint i post : List Char)
    (hpre : hasTripleB pre = false)
    (hhint : hint = [] ∨ hint = pythonL)
    (hfree : hasTripleB i = false)
    (hlast : i.getLast? ≠ some btick) :
    extract_code (pre ++ (trip ++ (hint ++ '\n' :: (i ++ trip ++ post))))
      = pyStrip i := by
  have hs := reSearch_first_fence pre hint i post hpre hhint hfree hlast
  simp only [extract_code, hs]

/-- Witness for C3: the amended theorem applied at a concrete input. -/
theorem C3_amended_first_fence_witness :
    extract_code (c3Pre0 ++ (trip ++ (pythonL ++ '\n' ::
      (c3Interior0 ++ trip ++ c3Post0)))) = pyStrip c3Interior0 :=
  C3_amended_first_fence c3Pre0 pythonL c3Interior0 c3Post0 (by decide)
    (Or.inr rfl) (by decide) (by decide)

/-- Counterexample for C3 as stated: a fenced block whose language hint is
    javascript is not matched by the pattern; extract_code returns the
    whole text (fences included), not the trimmed interior. -/
theorem C3_counterexample :
    extract_code jsBlock0 = jsBlock0 ∧ extract_code jsBlock0 ≠ jsInterior0 := by
  constructor
  · decide
  · decide

/-- Claim C4 (confirmed): on any text on which the fence pattern does not
    match anywhere, extract_code returns the whole input stripped of
    leading and trailing whitespace and otherwise unchanged; in
    particular extract_code of the empty string is the empty string. -/
theorem C4_no_fence_returns_trim (l : List Char) :
    (¬ containsFenceMatch l → extract_code l = pyStrip l) ∧
      extract_code [] = [] := by
  constructor
  · intro hnc
    cases hsr : reSearch l with
    | none => simp only [extract_code, hsr]
    | some i =>
      exfalso
      apply hnc
      obtain ⟨n, hn⟩ := reSearch_some_exists l i hsr
      obtain ⟨hint, p, hh, hdec⟩ := tryMatchAt_some_decomp _ i hn
      exact ⟨n, hint, i, p, hh, hdec⟩
  · decide

/-- Witness for C4: the theorem applied at a concrete fence-free input. -/
theorem C4_no_fence_returns_trim_witness :
    extract_code c4Input0 = pyStrip c4Input0 :=
  (C4_no_fence_returns_trim c4Input0).1 (noTriple_no_fence c4Input0 (by decide))

/-- Claim C5 (confirmed): extract_code is idempotent on every input. -/
theorem C5_extract_idempotent (l : List Char) :
    extract_code (extract_code l) = extract_code l := by
  cases hsr : reSearch l with
  | none =>
    simp only [extract_code, hsr]
    obtain ⟨a, b, hd⟩ := pyStrip_decomp l
    have hnone := reSearch_none_of_decomp l a (pyStrip l) b hsr hd
    simp only [hnone]
    exact pyStrip_idem l
  | some i =>
    simp only [extract_code, hsr]
    obtain ⟨n, hn⟩ := reSearch_some_exists l i hsr
    obtain ⟨r, p2, hf, hsp⟩ := tryMatchAt_some_inv _ i hn
    have hifree := splitAtTriple_interior_free r i p2 hsp
    obtain ⟨a, b, hd⟩ := pyStrip_decomp i
    have hfree2 := noTriple_of_decomp i a (pyStrip i) b hifree hd
    have hnone := noTriple_reSearch_none (pyStrip i) hfree2
    simp only [hnone]
    exact pyStrip_idem i

/-- Claim C2 (corrected): on a fully successful run the stream is exactly
    the ten frames below: stage events in the fixed order coder, tester,
    testagent, test_results, documenter; the coder, tester, testagent and
    documenter events are each immediately preceded by a status frame
    naming their stage, but the test_results event directly follows the
    testagent event with no status frame of its own; the stream ends with
    a status frame whose value is Done. -/
theorem C2_amended_order (a b c d out errOut : List Char) (exitCode : Int)
    (fs0 : FS) :
    (event_stream (LLMResult.ok a) (LLMResult.ok b) (LLMResult.ok c)
      (LLMResult.ok d) (LaunchOutcome.launched out errOut exitCode) fs0).frames
    = [Frame.status "Coder",
       Frame.event "coder" (pySplitlines (extract_code a)),
       Frame.status "Tester",
       Frame.event "tester" (pySplitlines (extract_code b)),
       Frame.status "TestAgent",
       Frame.event "testagent" (pySplitlines (preambleL ++ extract_code c)),
       Frame.event "test_results" (pySplitlines (out ++ errOut)),
       Frame.status "Documenter",
       Frame.event "documenter" (pySplitlines (extract_code d)),
       Frame.status "Done"] := rfl

/-- Counterexample for C2 as stated: in a fully successful concrete run
    the test_results event (frame 6) is immediately preceded by the
    testagent event (frame 5), not by a status frame, so not every stage
    is preceded by a status frame naming it. -/
theorem C2_counterexample :
    frames0.map frameLabel
      = [ "status:Coder", "event:coder", "status:Tester", "event:tester",
          "status:TestAgent", "event:testagent", "event:test_results",
          "status:Documenter", "event:documenter", "status:Done"] ∧
    (frames0[5]?).map frameIsStatusB = some false ∧
    (frames0[6]?).map (fun f => frameHasTag f "test_results") = some true := by
  refine ⟨by decide, by decide, by decide⟩

/-- Claim C6 (corrected): a backend exception during any stage ends the
    run right there: the frames already produced (ending with the status
    frame of the failing stage) are all the stream carries, no later
    stage event and no Done marker is emitted, and no error frame exists
    in the protocol at all (the Frame type has no error form) - the
    exception escapes the generator, which a consumer sees only as the
    stream breaking off.  One conjunct per failing stage. -/
theorem C6_amended_truncation (a b c : List Char) (r2 r3 r4 : LLMResult)
    (e : PyExn) (launch : LaunchOutcome) (out errOut : List Char)
    (exitCode : Int) (fs0 : FS) :
    (event_stream (LLMResult.err e) r2 r3 r4 launch fs0
      = ⟨[Frame.status "Coder"], fs0, some e, none⟩) ∧
    (event_stream (LLMResult.ok a) (LLMResult.err e) r3 r4 launch fs0
      = ⟨[Frame.status "Coder",
          Frame.event "coder" (pySplitlines (extract_code a)),
          Frame.status "Tester"], fs0, some e, none⟩) ∧
    (event_stream (LLMResult.ok a) (LLMResult.ok b) (LLMResult.err e) r4
        launch fs0
      = ⟨[Frame.status "Coder",
          Frame.event "coder" (pySplitlines (extract_code a)),
          Frame.status "Tester",
          Frame.event "tester" (pySplitlines (extract_code b)),
          Frame.status "TestAgent"], fs0, some e, none⟩) ∧
    ((event_stream (LLMResult.ok a) (LLMResult.ok b) (LLMResult.ok c)
        (LLMResult.err e) (LaunchOutcome.launched out errOut exitCode)
        fs0).frames
      = [Frame.status "Coder",
         Frame.event "coder" (pySplitlines (extract_code a)),
         Frame.status "Tester",
         Frame.event "tester" (pySplitlines (extract_code b)),
         Frame.status "TestAgent",
         Frame.event "testagent"
           (pySplitlines (preambleL ++ extract_code c)),
         Frame.event "test_results" (pySplitlines (out ++ errOut)),
         Frame.status "Documenter"] ∧
     (event_stream (LLMResult.ok a) (LLMResult.ok b) (LLMResult.ok c)
        (LLMResult.err e) (LaunchOutcome.launched out errOut exitCode)
        fs0).exn = some e) :=
  ⟨rfl, rfl, rfl, rfl, rfl⟩

/-- Counterexample for C6 as stated: a connection failure on the Tester
    stage of a concrete run leaves the stream as exactly status Coder,
    the coder event, and status Tester; the exception escapes the
    generator and no terminal error frame is appended - the stream is
    silently truncated. -/
theorem C6_counterexample :
    (event_stream (LLMResult.ok rawCoder0)
      (LLMResult.err PyExn.backendUnavailable) (LLMResult.ok rawTests0)
      (LLMResult.ok rawDocs0) (LaunchOutcome.launched outText0 errText0 0)
      []).frames.map frameLabel
      = [ "status:Coder", "event:coder", "status:Tester"] ∧
    (event_stream (LLMResult.ok rawCoder0)
      (LLMResult.err PyExn.backendUnavailable) (LLMResult.ok rawTests0)
      (LLMResult.ok rawDocs0) (LaunchOutcome.launched outText0 errText0 0)
      []).exn = some PyExn.backendUnavailable :=
  ⟨rfl, rfl⟩

/-- Claim C1 (corrected): on the two normal exit paths of the test stage
    (the child process was launched and exited, whatever its status) both
    temporary files are removed before the stage finishes; but when the
    launch itself throws, the exception escapes before the removals run
    and both files are left on disk with the contents just written. -/
theorem C1_amended_cleanup (a b c : List Char) (d : LLMResult)
    (out errOut : List Char) (exitCode : Int) (fs0 : FS) :
    ((fsGet (event_stream (LLMResult.ok a) (LLMResult.ok b) (LLMResult.ok c)
        d (LaunchOutcome.launched out errOut exitCode) fs0).fs moduleFile
        = none) ∧
     (fsGet (event_stream (LLMResult.ok a) (LLMResult.ok b) (LLMResult.ok c)
        d (LaunchOutcome.launched out errOut exitCode) fs0).fs testFile
        = none)) ∧
    ((fsGet (event_stream (LLMResult.ok a) (LLMResult.ok b) (LLMResult.ok c)
        d LaunchOutcome.failed fs0).fs moduleFile
        = some (extract_code a)) ∧
     (fsGet (event_stream (LLMResult.ok a) (LLMResult.ok b) (LLMResult.ok c)
        d LaunchOutcome.failed fs0).fs testFile
        = some (preambleL ++ extract_code c))) := by
  have hmt : moduleFile ≠ testFile := by decide
  have htm : testFile ≠ moduleFile := by decide
  constructor
  · have hfs : (event_stream (LLMResult.ok a) (LLMResult.ok b)
        (LLMResult.ok c) d (LaunchOutcome.launched out errOut exitCode)
        fs0).fs
        = fsRemove testFile (fsRemove moduleFile
            (fsWrite testFile (preambleL ++ extract_code c)
              (fsWrite moduleFile (extract_code a) fs0))) := by
      cases d with
      | ok t => rfl
      | err e => rfl
    rw [hfs]
    constructor
    · rw [fsGet_remove_other testFile moduleFile _ hmt, fsGet_remove_self]
    · rw [fsGet_remove_self]
  · have hfs : (event_stream (LLMResult.ok a) (LLMResult.ok b)
        (LLMResult.ok c) d LaunchOutcome.failed fs0).fs
        = fsWrite testFile (preambleL ++ extract_code c)
            (fsWrite moduleFile (extract_code a) fs0) := rfl
    rw [hfs]
    constructor
    · rw [fsGet_write_other testFile _ moduleFile _ hmt, fsGet_write_self]
    · rw [fsGet_write_self]

/-- Counterexample for C1 as stated: in a concrete run whose child launch
    throws, both temporary files are still present (with the module and
    test sources) after the stage ends, so it is not the case that every
    exit path deletes them. -/
theorem C1_counterexample :
    (fsGet (event_stream (LLMResult.ok rawCoder0) (LLMResult.ok rawTester0)
      (LLMResult.ok rawTests0) (LLMResult.ok rawDocs0) LaunchOutcome.failed
      []).fs moduleFile).isSome = true ∧
    (fsGet (event_stream (LLMResult.ok rawCoder0) (LLMResult.ok rawTester0)
      (LLMResult.ok rawTests0) (LLMResult.ok rawDocs0) LaunchOutcome.failed
      []).fs testFile).isSome = true ∧
    (event_stream (LLMResult.ok rawCoder0) (LLMResult.ok rawTester0)
      (LLMResult.ok rawTests0) (LLMResult.ok rawDocs0) LaunchOutcome.failed
      []).exn = some PyExn.testLaunch := by
  refine ⟨by decide, by decide, by decide⟩

/-- Claim C7 (corrected): when the launch of the test child process
    throws, the exception ends the whole run: the stream stops right
    after the testagent event (there is no test_results event carrying a
    diagnostic, no documenter event, no Done marker), and the two
    temporary files are left on disk uncleaned. -/
theorem C7_amended_launch_abort (a b c : List Char) (d : LLMResult)
    (fs0 : FS) :
    ((event_stream (LLMResult.ok a) (LLMResult.ok b) (LLMResult.ok c) d
        LaunchOutcome.failed fs0).frames.map frameLabel
      = [ "status:Coder", "event:coder", "status:Tester", "event:tester",
          "status:TestAgent", "event:testagent"]) ∧
    (event_stream (LLMResult.ok a) (LLMResult.ok b) (LLMResult.ok c) d
        LaunchOutcome.failed fs0).exn = some PyExn.testLaunch ∧
    (fsGet (event_stream (LLMResult.ok a) (LLMResult.ok b) (LLMResult.ok c)
        d LaunchOutcome.failed fs0).fs moduleFile
      = some (extract_code a)) ∧
    (fsGet (event_stream (LLMResult.ok a) (LLMResult.ok b) (LLMResult.ok c)
        d LaunchOutcome.failed fs0).fs testFile
      = some (preambleL ++ extract_code c)) := by
  have hmt : moduleFile ≠ testFile := by decide
  refine ⟨rfl, rfl, ?_, ?_⟩
  · have hfs : (event_stream (LLMResult.ok a) (LLMResult.ok b)
        (LLMResult.ok c) d LaunchOutcome.failed fs0).fs
        = fsWrite testFile (preambleL ++ extract_code c)
            (fsWrite moduleFile (extract_code a) fs0) := rfl
    rw [hfs, fsGet_write_other testFile _ moduleFile _ hmt, fsGet_write_self]
  · have hfs : (event_stream (LLMResult.ok a) (LLMResult.ok b)
        (LLMResult.ok c) d LaunchOutcome.failed fs0).fs
        = fsWrite testFile (preambleL ++ extract_code c)
            (fsWrite moduleFile (extract_code a) fs0) := rfl
    rw [hfs, fsGet_write_self]

/-- Counterexample for C7 as stated: in a concrete run whose child launch
    throws, no documenter event and no Done status are emitted (the
    stream ends at the testagent event) and the temporary module file is
    still on disk, so the launch failure does abort the Documenter stage
    and does prevent cleanup. -/
theorem C7_counterexample :
    (event_stream (LLMResult.ok rawCoder0) (LLMResult.ok rawTester0)
      (LLMResult.ok rawTests0) (LLMResult.ok rawDocs0) LaunchOutcome.failed
      []).frames.map frameLabel
      = [ "status:Coder", "event:coder", "status:Tester", "event:tester",
          "status:TestAgent", "event:testagent"] ∧
    (event_stream (LLMResult.ok rawCoder0) (LLMResult.ok rawTester0)
      (LLMResult.ok rawTests0) (LLMResult.ok rawDocs0) LaunchOutcome.failed
      []).exn = some PyExn.testLaunch ∧
    (fsGet (event_stream (LLMResult.ok rawCoder0) (LLMResult.ok rawTester0)
      (LLMResult.ok rawTests0) (LLMResult.ok rawDocs0) LaunchOutcome.failed
      []).fs moduleFile).isSome = true := by
  refine ⟨by decide, by decide, by decide⟩

/-- Claim C9 (confirmed): whatever the launch outcome and the documenter
    result, the pair of sources handed to the test run is exactly the
    coder stage's extracted code, unchanged, as the module source, and
    the fixed import preamble (import of the target function from the
    well-known module name, then the unit-test framework import)
    followed verbatim by the extracted TestAgent body as the test
    source. -/
theorem C9_test_module_assembly (a b c : List Char) (d : LLMResult)
    (launch : LaunchOutcome) (fs0 : FS) :
    (event_stream (LLMResult.ok a) (LLMResult.ok b) (LLMResult.ok c) d
        launch fs0).ranWith
      = some (extract_code a, preambleL ++ extract_code c) := by
  cases launch with
  | failed => rfl
  | launched out errOut exitCode =>
    cases d with
    | ok t => rfl
    | err e => rfl

/-- Claim C8 (corrected): for a reply with a successful status, the call
    succeeds with the stripped text field when the whole body parses as a
    single structured response; otherwise the body is stripped and split
    into lines and the LAST line alone decides the outcome: its parse
    gives both the value and the validity of the call, so the call fails
    exactly when the last line does not parse (a parseable earlier line
    does not save the call), and also fails when there is no line at
    all. -/
theorem C8_amended_last_line
    (parse : List Char → Option (List (List Char × List Char)))
    (body : List Char) :
    (∀ data, parse body = some data →
        call_llm parse true body = some (pyStrip (lookupD data respKey []))) ∧
    (parse body = none → (pySplitlines (pyStrip body)).getLast? = none →
        call_llm parse true body = none) ∧
    (∀ lastL, parse body = none →
        (pySplitlines (pyStrip body)).getLast? = some lastL →
        call_llm parse true body
          = (parse lastL).map (fun d => pyStrip (lookupD d respKey []))) := by
  refine ⟨?_, ?_, ?_⟩
  · intro data h
    simp [call_llm, h]
  · intro h hl
    simp [call_llm, h, hl]
  · intro lastL h hl
    cases hp : parse lastL with
    | none => simp [call_llm, h, hl, hp]
    | some d => simp [call_llm, h, hl, hp]

/-- Witness for C8: the amended theorem applied to a concrete body whose
    last line parses. -/
theorem C8_amended_last_line_witness :
    call_llm parseSimple true c8Body2
      = (parseSimple c8Last2).map (fun d => pyStrip (lookupD d respKey [])) :=
  (C8_amended_last_line parseSimple c8Body2).2.2 c8Last2 (by decide) (by decide)

/-- Counterexample for C8 as stated: a successful-status body whose first
    line parses into the expected structure but whose last line does not;
    the claim promises success whenever some line parses, yet the call
    fails, because only the last line is consulted. -/
theorem C8_counterexample :
    call_llm parseSimple true c8Body0 = none ∧
    parseSimple c8FirstLine0 = some [(respKey, helloVal)] ∧
    pySplitlines (pyStrip c8Body0) = [c8FirstLine0, garbageLine0] ∧
    parseSimple c8Body0 = none := by
  refine ⟨by decide, by decide, by decide, by decide⟩

/-- Claim C10 (confirmed): whenever the generation call returns a text,
    that text has been stripped: it neither begins nor ends with a
    whitespace character. -/
theorem C10_generate_stripped
    (parse : List Char → Option (List (List Char × List Char)))
    (st : Bool) (body r : List Char)
    (h : call_llm parse st body = some r) :
    (r.head?.elim true (fun c => !pyIsSpace c)) = true ∧
    (r.getLast?.elim true (fun c => !pyIsSpace c)) = true := by
  have hr : ∃ x, r = pyStrip x := by
    simp only [call_llm] at h
    split at h
    · exact absurd h (by simp)
    · split at h
      · simp only [Option.some.injEq] at h
        exact ⟨_, h.symm⟩
      · split at h
        · exact absurd h (by simp)
        · split at h
          · simp only [Option.some.injEq] at h
            exact ⟨_, h.symm⟩
          · exact absurd h (by simp)
  obtain ⟨x, hx⟩ := hr
  subst hx
  constructor
  · cases hh : (pyStrip x).head? with
    | none => simp
    | some c =>
      have := head?_pyStrip_false x c hh
      simp [this]
  · cases hh : (pyStrip x).getLast? with
    | none => simp
    | some c =>
      have := getLast?_pyStrip_false x c hh
      simp [this]

/-- Witness for C10: the theorem applied at a concrete call whose raw
    field value carries surrounding whitespace. -/
theorem C10_generate_stripped_witness :
    call_llm parseSimple true c10Body0 = some okVal ∧
    ((okVal.head?.elim true (fun c => !pyIsSpace c)) = true ∧
     (okVal.getLast?.elim true (fun c => !pyIsSpace c)) = true) :=
  ⟨by decide, C10_generate_stripped parseSimple true c10Body0 okVal (by decide)⟩
